import Mathlib

/-!
Verification of the NRMS news-recommendation model (`src/models/v1.py`).

Shallow embedding conventions:
* Tensors are nested lists of rationals.  A tensor of shape `(batch, length, dim)`
  is a `List (List (List ℚ))` whose outer list has `batch` elements, each a
  `length × dim` matrix.  Well-formedness (rectangularity) is carried as
  hypotheses where a claim needs it, exactly as a real tensor guarantees it.
* `torch.exp` (inside softmax) and `torch.tanh` are transcendental and are
  modelled as explicit function parameters `e th : ℚ → ℚ`; theorems that need
  analytic facts assume them (`0 < e q` for the positivity of `exp`).
* External collaborators — the pretrained Electra document encoder and
  `nn.MultiheadAttention` — are opaque functions stored in the module
  structures; the shape contracts they satisfy in PyTorch appear as
  hypotheses of the theorems that need them.
* A Python `assert` failure or a `None` dereference is modelled by `Option`
  (`none` = the call raises); the explicit `ValueError`s of `NRMS.forward`
  are modelled by `Except String` carrying the source's message strings.
* `tensor.view` on well-formed inputs is flattening/unflattening of the
  outer axes; it is modelled by `List.flatten` and `unflatten` below.
-/

/- ### Tensor primitives -/

/-- Dot product of two vectors (`torch` inner product on 1-d tensors). -/
def dot (u v : List ℚ) : ℚ := (List.zipWith (· * ·) u v).sum

/-- Scalar multiplication of a vector. -/
def scaleVec (a : ℚ) (v : List ℚ) : List ℚ := v.map (fun c => a * c)

/-- Elementwise sum of two vectors. -/
def addVec (u v : List ℚ) : List ℚ := List.zipWith (· + ·) u v

/-- Sum of a list of `d`-dimensional vectors (`torch.sum(·, dim=1)` on one batch row). -/
def sumVecs (d : ℕ) (vs : List (List ℚ)) : List ℚ :=
  vs.foldr addVec (List.replicate d 0)

/-- Weighted sum `Σ_t w[t] • rows[t]` of `d`-dimensional vectors: the embedding of
`torch.sum(weights.unsqueeze(-1) * rows, dim=1)` on one batch row. -/
def weightedSum (d : ℕ) (w : List ℚ) (rows : List (List ℚ)) : List ℚ :=
  sumVecs d (List.zipWith scaleVec w rows)

/-- The first-axis/second-axis shape of a (rectangular) matrix, as read by
`tensor.shape[0], tensor.shape[1]`. -/
def matShape (m : List (List ℚ)) : ℕ × ℕ := (m.length, (m.getD 0 []).length)

/-- Splitting a flat batch axis of size `u * t` back into `(u, t)`:
the embedding of `tensor.view(u, t, ...)` on the outer axis. -/
def unflatten (u t : ℕ) (l : List α) : List (List α) :=
  (List.range u).map (fun i => (l.drop (i * t)).take t)

/-- Matrix product (`torch.matmul` on 2-d tensors): entry `(i, j)` is
`Σ_k A[i][k] * B[k][j]`. -/
def matmul (A B : List (List ℚ)) : List (List ℚ) :=
  A.map (fun row =>
    (List.range (B.getD 0 []).length).map
      (fun j => (List.zipWith (fun a brow => a * brow.getD j 0) row B).sum))

/-- Batched matrix multiplication, `torch.bmm`. -/
def bmm (X Y : List (List (List ℚ))) : List (List (List ℚ)) := List.zipWith matmul X Y

/-- `tensor.unsqueeze(2)` on a `(batch, dim)` tensor: each scalar becomes a
singleton row, giving shape `(batch, dim, 1)`. -/
def unsqueeze2 (m : List (List ℚ)) : List (List (List ℚ)) :=
  m.map (fun v => v.map (fun c => [c]))

/-- `tensor.squeeze(2)` on a `(batch, n, 1)` tensor: each singleton row
collapses to its entry, giving shape `(batch, n)`. -/
def squeeze2 (t : List (List (List ℚ))) : List (List ℚ) :=
  t.map (fun m => m.map (fun r => r.getD 0 0))

/- ### Model modules (`src/models/v1.py`) -/

/-- `nn.Linear`: an affine map given by a weight matrix (one row per output
coordinate) and a bias vector. -/
structure Linear where
  weight : List (List ℚ)
  bias : List ℚ

/-- Application of `nn.Linear` to one vector: `W x + b`. -/
def Linear.apply (l : Linear) (x : List ℚ) : List ℚ :=
  List.zipWith (fun row b => dot row x + b) l.weight l.bias

/-- Row-wise `nn.Softmax` over one row of scores, with `e` standing for
`torch.exp`: `softmax(s)_i = e(s_i) / Σ_j e(s_j)`. -/
def softmax (e : ℚ → ℚ) (s : List ℚ) : List ℚ :=
  s.map (fun x => e x / (s.map e).sum)

/-- `AdditiveAttention` (`src/models/v1.py:111-131`): a learned projection
`proj` (`nn.Linear(embed_dim, output_dim)`), `tanh`, then the bias-free
one-output layer `proj_v` (kept as its single weight row), then softmax over
the length axis.  The dropout layer is constructed but commented out in
`forward` and therefore absent here. -/
structure AdditiveAttention where
  proj : Linear
  proj_v : List ℚ

/-- `AdditiveAttention.forward` on a `(batch, length, dim)` input, returning
the `(batch, length)` attention probabilities.  `th` stands for `torch.tanh`
and `e` for the exponential inside softmax. -/
def AdditiveAttention.forward (A : AdditiveAttention) (th e : ℚ → ℚ)
    (x : List (List (List ℚ))) : List (List ℚ) :=
  x.map (fun row => softmax e (row.map (fun v => dot ((A.proj.apply v).map th) A.proj_v)))

/-- `NewsEncoder` (`src/models/v1.py:134-183`).  `nn.MultiheadAttention` is an
external library module; it is kept opaque as a function from the input tensor
and the key-padding mask to the pair (contextualized output, attention
weights).  `additive_attention` and `linear` are the learned submodules. -/
structure NewsEncoder where
  multi_head_attention :
    List (List (List ℚ)) → List (List ℚ) → List (List (List ℚ)) × List (List (List ℚ))
  additive_attention : AdditiveAttention
  linear : Linear

/-- `NewsEncoder.forward` (`src/models/v1.py:154-183`).  The source first
evaluates `key_padding_mask.shape`, which raises `AttributeError` when the
mask is `None` (modelled by `none`), then asserts the mask shape equals
`(x.shape[0], x.shape[1])` (an `AssertionError`, modelled by `none`).  On
success it returns `(out, context_weights, additive_weights)` where `out` is
the additive-weighted sum of `tanh(linear(context))` over the length axis, and
the additive weights — computed on the pre-projection `context` — are
multiplied elementwise by the softmax-padding mask when one is supplied,
without renormalization. -/
def NewsEncoder.forward (N : NewsEncoder) (th e : ℚ → ℚ)
    (x : List (List (List ℚ)))
    (key_padding_mask : Option (List (List ℚ)))
    (softmax_padding_mask : Option (List (List ℚ))) :
    Option (List (List ℚ) × List (List (List ℚ)) × List (List ℚ)) :=
  match key_padding_mask with
  | none => none
  | some kpm =>
      if matShape kpm = (x.length, (x.getD 0 []).length) then
        let mha := N.multi_head_attention x kpm
        let context := mha.1
        let context_weights := mha.2
        let transformed_context :=
          context.map (fun row => row.map (fun v => (N.linear.apply v).map th))
        let additive_weights := N.additive_attention.forward th e context
        let additive_weights :=
          match softmax_padding_mask with
          | some m => List.zipWith (List.zipWith (· * ·)) additive_weights m
          | none => additive_weights
        let out := List.zipWith (weightedSum N.linear.weight.length)
          additive_weights transformed_context
        some (out, context_weights, additive_weights)
      else
        none

/-- The additive weights computed inside `NewsEncoder.forward`: the
additive-attention probabilities on the contextualized (pre-projection)
vectors, multiplied elementwise by the softmax-padding mask when one is
supplied (no renormalization). -/
def NewsEncoder.maskedWeights (N : NewsEncoder) (th e : ℚ → ℚ)
    (x : List (List (List ℚ))) (kpm : List (List ℚ))
    (softmax_padding_mask : Option (List (List ℚ))) : List (List ℚ) :=
  let probs := N.additive_attention.forward th e (N.multi_head_attention x kpm).1
  match softmax_padding_mask with
  | some m => List.zipWith (List.zipWith (· * ·)) probs m
  | none => probs

/-- `UserEncoder` (`src/models/v1.py:186-224`): the same two-stage pattern as
the News Encoder, one level up, with no padding mask.  Its
`nn.MultiheadAttention` is opaque, taking only the input tensor. -/
structure UserEncoder where
  multi_head_attention :
    List (List (List ℚ)) → List (List (List ℚ)) × List (List (List ℚ))
  additive_attention : AdditiveAttention
  linear : Linear

/-- `UserEncoder.forward` (`src/models/v1.py:205-224`): contextualize the
article vectors, project with `linear` and `tanh`, compute additive weights on
the pre-projection context, and take the weighted sum over the article axis. -/
def UserEncoder.forward (U : UserEncoder) (th e : ℚ → ℚ)
    (x : List (List (List ℚ))) : List (List ℚ) :=
  let mha := U.multi_head_attention x
  let context := mha.1
  let transformed_context :=
    context.map (fun row => row.map (fun v => (U.linear.apply v).map th))
  let additive_weights := U.additive_attention.forward th e context
  List.zipWith (weightedSum U.linear.weight.length) additive_weights transformed_context

/-- `DocEncoder` (`src/models/v1.py:75-88`): a wrapper around the pretrained
Electra model, an external collaborator; kept opaque as
`encode(ids, mask) -> embeddings` mapping `(N, seq)` to `(N, seq, embed)`. -/
structure DocEncoder where
  encode : List (List ℚ) → List (List ℚ) → List (List (List ℚ))

/-- `NRMS` (`src/models/v1.py:227-269`): the top-level module.  `embed_dim`
and `encoder_dim` are the configured dimensions; the constructor wires
`news_encoder.linear = nn.Linear(embed_dim, encoder_dim)` and
`user_encoder.linear = nn.Linear(encoder_dim, encoder_dim)`, which theorems
record as hypotheses relating the weight shapes to these fields. -/
structure NRMS where
  doc_encoder : DocEncoder
  news_encoder : NewsEncoder
  user_encoder : UserEncoder
  embed_dim : ℕ
  encoder_dim : ℕ

/-- `NRMS.forward_doc_encoder` (`src/models/v1.py:338-358`): flatten the
`(users, titles, seq)` batch to `(users*titles, seq)`, encode, and view the
result back as `(users, titles, seq, embed)`. -/
def NRMS.forward_doc_encoder (m : NRMS) (input_ids attention_mask : List (List (List ℚ))) :
    List (List (List (List ℚ))) :=
  let users := input_ids.length
  let titles := (input_ids.getD 0 []).length
  unflatten users titles (m.doc_encoder.encode input_ids.flatten attention_mask.flatten)

/-- `NRMS.forward_news_encoder` (`src/models/v1.py:360-393`): encode
documents, flatten the `(users, titles)` axes, run the News Encoder on the
flat article batch, and view the news vectors back as
`(users, titles, encoder_dim)`. -/
def NRMS.forward_news_encoder (m : NRMS) (th e : ℚ → ℚ)
    (input_ids attention_mask key_padding_mask : List (List (List ℚ)))
    (softmax_padding_mask : Option (List (List (List ℚ)))) :
    Option (List (List (List ℚ)) × List (List (List ℚ)) × List (List ℚ)) :=
  let embeddings4 := m.forward_doc_encoder input_ids attention_mask
  let users := embeddings4.length
  let titles := (embeddings4.getD 0 []).length
  let embeddings := embeddings4.flatten
  let kpm := key_padding_mask.flatten
  let smp := softmax_padding_mask.map List.flatten
  match m.news_encoder.forward th e embeddings (some kpm) smp with
  | none => none
  | some res => some (unflatten users titles res.1, res.2.1, res.2.2)

/-- `NRMS.forward_user_encoder` (`src/models/v1.py:395-426`): run the News
Encoder over the clicked history (routing the softmax-padding mask to it),
aggregate with the User Encoder, and assert the user vector has shape
`(users, encoder_dim)` — the article axis fully collapsed. -/
def NRMS.forward_user_encoder (m : NRMS) (th e : ℚ → ℚ)
    (input_ids attention_mask key_padding_mask : List (List (List ℚ)))
    (softmax_padding_mask : Option (List (List (List ℚ)))) :
    Option (List (List ℚ)) :=
  match m.forward_news_encoder th e input_ids attention_mask key_padding_mask
      softmax_padding_mask with
  | none => none
  | some res =>
      let news_vectors := res.1
      let users := news_vectors.length
      let encoder_dim := ((news_vectors.getD 0 []).getD 0 []).length
      let user_vector := m.user_encoder.forward th e news_vectors
      if user_vector.length = users ∧ user_vector.all (fun v => v.length = encoder_dim) then
        some user_vector
      else
        none

/-- The `ValueError` messages of `NRMS.forward` (`src/models/v1.py:297-313`),
one per required input field, in source order. -/
def requiredFieldErrors : List String :=
  ["clicked_ids must be provided.",
   "clicked_attention_mask must be provided.",
   "clicked_key_padding_mask must be provided.",
   "labeled_ids must be provided.",
   "labeled_attention_mask must be provided.",
   "labeled_key_padding_mask must be provided."]

/-- `NRMS.forward` (`src/models/v1.py:271-336`): validate the six required
inputs (each `None` raises a `ValueError` naming the field; the clicked
softmax-padding mask is optional and unchecked), encode the labeled
candidates (no softmax-padding mask on this path), encode the clicked history
into user vectors, and score by the batched matrix-vector product
`torch.bmm(news_vectors, user_vectors.unsqueeze(2)).squeeze(2)`.  A failure
inside the encoders (a Python `assert`) is a distinct `AssertionError`. -/
def NRMS.forward (m : NRMS) (th e : ℚ → ℚ)
    (clicked_ids clicked_attention_mask clicked_key_padding_mask
      clicked_softmax_padding_mask labeled_ids labeled_attention_mask
      labeled_key_padding_mask : Option (List (List (List ℚ)))) :
    Except String (List (List ℚ) × List (List (List ℚ)) × List (List ℚ)) :=
  match clicked_ids with
  | none => Except.error "clicked_ids must be provided."
  | some cids =>
  match clicked_attention_mask with
  | none => Except.error "clicked_attention_mask must be provided."
  | some cam =>
  match clicked_key_padding_mask with
  | none => Except.error "clicked_key_padding_mask must be provided."
  | some ckpm =>
  match labeled_ids with
  | none => Except.error "labeled_ids must be provided."
  | some lids =>
  match labeled_attention_mask with
  | none => Except.error "labeled_attention_mask must be provided."
  | some lam =>
  match labeled_key_padding_mask with
  | none => Except.error "labeled_key_padding_mask must be provided."
  | some lkpm =>
  match m.forward_news_encoder th e lids lam lkpm none with
  | none => Except.error "AssertionError"
  | some nres =>
  match m.forward_user_encoder th e cids cam ckpm clicked_softmax_padding_mask with
  | none => Except.error "AssertionError"
  | some user_vectors =>
      Except.ok (squeeze2 (bmm nres.1 (unsqueeze2 user_vectors)), nres.2.1, nres.2.2)

/- ### Step/epoch accumulator state machine (`src/models/v1.py:458-506`) -/

/-- The mutable per-epoch loss accumulators of the `NRMS` Lightning module
(`training_step_outputs`, `validating_step_outputs`, `testing_step_outputs`). -/
structure NRMSState where
  training_step_outputs : List ℚ
  validating_step_outputs : List ℚ
  testing_step_outputs : List ℚ

/-- `NRMS.training_step` (`src/models/v1.py:458-463`): append the per-step
loss (computed by `forward_and_compute_loss`, taken here as the input `loss`)
to the training accumulator and return it. -/
def NRMSState.training_step (s : NRMSState) (loss : ℚ) : NRMSState × ℚ :=
  ({ s with training_step_outputs := s.training_step_outputs ++ [loss] }, loss)

/-- `NRMS.validation_step` (`src/models/v1.py:465-484`): append the per-step
loss to the validation accumulator and return it (visualization logging is an
external side effect). -/
def NRMSState.validation_step (s : NRMSState) (loss : ℚ) : NRMSState × ℚ :=
  ({ s with validating_step_outputs := s.validating_step_outputs ++ [loss] }, loss)

/-- `NRMS.test_step` (`src/models/v1.py:486-491`): append the per-step loss to
the test accumulator and return it. -/
def NRMSState.test_step (s : NRMSState) (loss : ℚ) : NRMSState × ℚ :=
  ({ s with testing_step_outputs := s.testing_step_outputs ++ [loss] }, loss)

/-- `torch.stack(xs).mean()` on a list of scalar losses: undefined (raises) on
an empty list, otherwise the arithmetic mean. -/
def listMean (l : List ℚ) : Option ℚ :=
  if l = [] then none else some (l.sum / l.length)

/-- `NRMS.on_train_epoch_end` (`src/models/v1.py:493-496`): stack-and-mean the
training accumulator (raising if it is empty), report the average, and clear
the accumulator. -/
def NRMSState.on_train_epoch_end (s : NRMSState) : Option (ℚ × NRMSState) :=
  (listMean s.training_step_outputs).map
    (fun a => (a, { s with training_step_outputs := [] }))

/-- `NRMS.on_validation_epoch_end` (`src/models/v1.py:498-501`). -/
def NRMSState.on_validation_epoch_end (s : NRMSState) : Option (ℚ × NRMSState) :=
  (listMean s.validating_step_outputs).map
    (fun a => (a, { s with validating_step_outputs := [] }))

/-- `NRMS.on_test_epoch_end` (`src/models/v1.py:503-506`). -/
def NRMSState.on_test_epoch_end (s : NRMSState) : Option (ℚ × NRMSState) :=
  (listMean s.testing_step_outputs).map
    (fun a => (a, { s with testing_step_outputs := [] }))

/-- A sequence of training steps with the given per-step losses. -/
def runTrainingSteps (s : NRMSState) (losses : List ℚ) : NRMSState :=
  losses.foldl (fun st l => (st.training_step l).1) s

/-- A sequence of validation steps with the given per-step losses. -/
def runValidationSteps (s : NRMSState) (losses : List ℚ) : NRMSState :=
  losses.foldl (fun st l => (st.validation_step l).1) s

/-- A sequence of test steps with the given per-step losses. -/
def runTestSteps (s : NRMSState) (losses : List ℚ) : NRMSState :=
  losses.foldl (fun st l => (st.test_step l).1) s

/- ### Concrete instantiations used by witnesses and counterexamples -/

/-- A 1-dimensional `nn.Linear` with weight 1 and bias 0. -/
def exLinearId : Linear := ⟨[[1]], [0]⟩

/-- A 1-dimensional `nn.Linear` with weight 1 and bias 1. -/
def exLinearBias : Linear := ⟨[[1]], [1]⟩

/-- A concrete 1-dimensional additive-attention module. -/
def exAdd : AdditiveAttention := ⟨exLinearId, [1]⟩

/-- A concrete News Encoder whose multi-head attention is the identity on the
input (a legitimate instantiation of the opaque external module). -/
def exNews : NewsEncoder := ⟨fun x _ => (x, x), exAdd, exLinearId⟩

/-- A concrete User Encoder with identity multi-head attention and a linear
layer with nonzero bias. -/
def exUser : UserEncoder := ⟨fun x => (x, x), exAdd, exLinearBias⟩

/-- A concrete document encoder: each token id becomes its own 1-dimensional
embedding. -/
def exDoc : DocEncoder := ⟨fun ids _ => ids.map (fun r => r.map (fun c => [c]))⟩

/-- A concrete NRMS model with 1-dimensional embeddings. -/
def exM : NRMS := ⟨exDoc, exNews, exUser, 1, 1⟩

/- ### Arithmetic lemmas about the primitives -/

theorem sum_map_div (s : List ℚ) (f : ℚ → ℚ) (T : ℚ) :
    (s.map (fun x => f x / T)).sum = (s.map f).sum / T := by
  induction s with
  | nil => simp
  | cons a l ih => simp [ih, add_div]

theorem softmax_sum_eq_one (e : ℚ → ℚ) (s : List ℚ)
    (hpos : ∀ q, 0 < e q) (hne : s ≠ []) : (softmax e s).sum = 1 := by
  have hT : 0 < (s.map e).sum := by
    refine List.sum_pos _ (fun x hx => ?_) (by simpa using hne)
    rcases List.mem_map.mp hx with ⟨a, _, rfl⟩
    exact hpos a
  unfold softmax
  rw [sum_map_div]
  exact div_self (ne_of_gt hT)

theorem softmax_mem_unit (e : ℚ → ℚ) (s : List ℚ)
    (hpos : ∀ q, 0 < e q) (p : ℚ) (hp : p ∈ softmax e s) : 0 ≤ p ∧ p ≤ 1 := by
  rcases List.mem_map.mp hp with ⟨a, ha, rfl⟩
  have hT : 0 < (s.map e).sum := by
    refine List.sum_pos _ (fun x hx => ?_) ?_
    · rcases List.mem_map.mp hx with ⟨b, _, rfl⟩
      exact hpos b
    · intro h
      rw [List.map_eq_nil_iff] at h
      subst h
      simp at ha
  constructor
  · exact div_nonneg (le_of_lt (hpos a)) (le_of_lt hT)
  · rw [div_le_one hT]
    exact List.single_le_sum (fun x hx => by
      rcases List.mem_map.mp hx with ⟨b, _, rfl⟩
      exact le_of_lt (hpos b)) _ (List.mem_map.mpr ⟨a, ha, rfl⟩)

theorem softmax_length (e : ℚ → ℚ) (s : List ℚ) : (softmax e s).length = s.length := by
  simp [softmax]

/-- C3: `AdditiveAttention.forward` maps a `(batch, length, dim)` tensor to a
`(batch, length)` tensor in which every row is a probability distribution:
entries lie in `[0, 1]` and each row sums to `1` along the length axis.  The
hypotheses are that the exponential is positive (true of `torch.exp`) and that
the input rows are nonempty of uniform length `L` (a tensor with `length ≥ 1`). -/
theorem additiveAttention_forward_prob_distribution
    (A : AdditiveAttention) (th e : ℚ → ℚ) (x : List (List (List ℚ))) (L : ℕ)
    (hpos : ∀ q, 0 < e q) (hL : 0 < L) (hx : ∀ r ∈ x, r.length = L) :
    (A.forward th e x).length = x.length ∧
      ∀ row ∈ A.forward th e x,
        row.length = L ∧ row.sum = 1 ∧ ∀ p ∈ row, 0 ≤ p ∧ p ≤ 1 := by
  constructor
  · simp [AdditiveAttention.forward]
  · intro row hrow
    rcases List.mem_map.mp hrow with ⟨r, hr, rfl⟩
    have hlen : (r.map (fun v => dot ((A.proj.apply v).map th) A.proj_v)).length = L := by
      simpa using hx r hr
    have hne : r.map (fun v => dot ((A.proj.apply v).map th) A.proj_v) ≠ [] := by
      intro h
      rw [h] at hlen
      simp at hlen
      omega
    refine ⟨by rw [softmax_length]; exact hlen, ?_, ?_⟩
    · exact softmax_sum_eq_one e _ hpos hne
    · intro p hp
      exact softmax_mem_unit e _ hpos p hp

/-- Witness for C3 at a concrete input: batch 2, length 2, dim 1, with the
exponential instantiated to the positive function `fun q => 1` and tanh to the
identity. -/
theorem additiveAttention_forward_prob_distribution_witness :
    ((AdditiveAttention.forward ⟨⟨[[1]], [0]⟩, [1]⟩ id (fun _ => 1)
        [[[1], [2]], [[3], [4]]]).length = 2 ∧
      ∀ row ∈ AdditiveAttention.forward ⟨⟨[[1]], [0]⟩, [1]⟩ id (fun _ => 1)
        [[[1], [2]], [[3], [4]]],
        row.length = 2 ∧ row.sum = 1 ∧ ∀ p ∈ row, 0 ≤ p ∧ p ≤ 1) := by
  have h := additiveAttention_forward_prob_distribution
    ⟨⟨[[1]], [0]⟩, [1]⟩ id (fun _ => 1) [[[1], [2]], [[3], [4]]] 2
    (fun _ => one_pos) (by decide) (by decide)
  simpa using h

/- ### Index lemmas for the weighted sum -/

theorem sumVecs_length (d : ℕ) (vs : List (List ℚ))
    (h : ∀ v ∈ vs, v.length = d) : (sumVecs d vs).length = d := by
  induction vs with
  | nil => simp [sumVecs]
  | cons v vs ih =>
      have hv : v.length = d := h v (List.mem_cons_self ..)
      have hrest : (sumVecs d vs).length = d :=
        ih (fun w hw => h w (List.mem_cons_of_mem _ hw))
      simp [sumVecs, addVec] at hrest ⊢
      omega

theorem sumVecs_getD (d j : ℕ) (vs : List (List ℚ))
    (h : ∀ v ∈ vs, v.length = d) (hj : j < d) :
    (sumVecs d vs).getD j 0 = (vs.map (fun v => v.getD j 0)).sum := by
  induction vs with
  | nil => simp [sumVecs]
  | cons v vs ih =>
      have hv : v.length = d := h v (List.mem_cons_self ..)
      have hrest : (sumVecs d vs).length = d :=
        sumVecs_length d vs (fun w hw => h w (List.mem_cons_of_mem _ hw))
      have hlen : (addVec v (sumVecs d vs)).length = d := by
        simp [addVec]
        omega
      have hj1 : j < v.length := by omega
      have hj2 : j < (sumVecs d vs).length := by omega
      have : (sumVecs d (v :: vs)).getD j 0
          = v.getD j 0 + (sumVecs d vs).getD j 0 := by
        show (addVec v (sumVecs d vs)).getD j 0 = _
        rw [List.getD_eq_getElem _ _ (by omega : j < (addVec v (sumVecs d vs)).length)]
        rw [List.getD_eq_getElem _ _ hj1, List.getD_eq_getElem _ _ hj2]
        simp [addVec]
      rw [this, ih (fun w hw => h w (List.mem_cons_of_mem _ hw))]
      simp

theorem zipWith_mem_ex {α β γ : Type} (f : α → β → γ) (l1 : List α) (l2 : List β)
    (c : γ) (hc : c ∈ List.zipWith f l1 l2) :
    ∃ a ∈ l1, ∃ b ∈ l2, c = f a b := by
  induction l1 generalizing l2 with
  | nil => simp at hc
  | cons a ws ih =>
      cases l2 with
      | nil => simp at hc
      | cons r rs =>
          rcases List.mem_cons.mp hc with hc | hc
          · exact ⟨a, List.mem_cons_self .., r, List.mem_cons_self .., hc⟩
          · rcases ih rs hc with ⟨b, hb, s, hs, rfl⟩
            exact ⟨b, List.mem_cons_of_mem _ hb, s, List.mem_cons_of_mem _ hs, rfl⟩

theorem weightedSum_length (d : ℕ) (w : List ℚ) (rows : List (List ℚ))
    (h : ∀ r ∈ rows, r.length = d) : (weightedSum d w rows).length = d := by
  refine sumVecs_length d _ (fun v hv => ?_)
  rcases zipWith_mem_ex scaleVec w rows v hv with ⟨a, _, r, hr, rfl⟩
  simp [scaleVec]
  exact h r hr

theorem weightedSum_getD (d j : ℕ) (w : List ℚ) (rows : List (List ℚ))
    (h : ∀ r ∈ rows, r.length = d) (hj : j < d) :
    (weightedSum d w rows).getD j 0
      = ∑ t ∈ Finset.range (min w.length rows.length),
          w.getD t 0 * (rows.getD t []).getD j 0 := by
  induction rows generalizing w with
  | nil => simp [weightedSum, sumVecs]
  | cons r rs ih =>
      cases w with
      | nil => simp [weightedSum, sumVecs]
      | cons a ws =>
          have hr : r.length = d := h r (List.mem_cons_self ..)
          have hrs : ∀ x ∈ rs, x.length = d := fun x hx => h x (List.mem_cons_of_mem _ hx)
          have step : weightedSum d (a :: ws) (r :: rs)
              = addVec (scaleVec a r) (weightedSum d ws rs) := by
            simp [weightedSum, sumVecs]
          have hlen1 : (scaleVec a r).length = d := by simp [scaleVec, hr]
          have hlen2 : (weightedSum d ws rs).length = d := weightedSum_length d ws rs hrs
          have hget : (addVec (scaleVec a r) (weightedSum d ws rs)).getD j 0
              = (scaleVec a r).getD j 0 + (weightedSum d ws rs).getD j 0 := by
            rw [List.getD_eq_getElem _ _
              (by simp [addVec]; omega :
                j < (addVec (scaleVec a r) (weightedSum d ws rs)).length)]
            rw [List.getD_eq_getElem _ _ (by omega : j < (scaleVec a r).length),
              List.getD_eq_getElem _ _ (by omega : j < (weightedSum d ws rs).length)]
            simp [addVec]
          have hscale : (scaleVec a r).getD j 0 = a * r.getD j 0 := by
            rw [List.getD_eq_getElem _ _ (by omega : j < (scaleVec a r).length),
              List.getD_eq_getElem _ _ (by omega : j < r.length)]
            simp [scaleVec]
          rw [step, hget, hscale, ih ws hrs]
          have hmin : min (a :: ws).length (r :: rs).length = min ws.length rs.length + 1 := by
            simp
            omega
          rw [hmin, Finset.sum_range_succ']
          simp [add_comm]

theorem weightedSum_zero_weights (d : ℕ) (w : List ℚ) (rows : List (List ℚ))
    (h : ∀ r ∈ rows, r.length = d) (hw : ∀ c ∈ w, c = 0) :
    weightedSum d w rows = List.replicate d 0 := by
  refine List.ext_getElem (by rw [weightedSum_length d w rows h]; simp) ?_
  intro i h1 h2
  have hi : i < d := by
    have := weightedSum_length d w rows h
    omega
  have := weightedSum_getD d i w rows h hi
  rw [List.getD_eq_getElem _ _ h1] at this
  rw [this]
  rw [List.getElem_replicate]
  refine Finset.sum_eq_zero (fun t ht => ?_)
  have htw : t < w.length := by
    simp at ht
    omega
  have : w.getD t 0 = 0 := by
    rw [List.getD_eq_getElem _ _ htw]
    exact hw _ (List.getElem_mem htw)
  rw [this, zero_mul]

/- ### Unfolding lemmas for the News Encoder -/

theorem zipWith_getD {α β γ : Type} (f : α → β → γ) (l1 : List α) (l2 : List β)
    (i : ℕ) (da : α) (db : β) (dc : γ) (h1 : i < l1.length) (h2 : i < l2.length) :
    (List.zipWith f l1 l2).getD i dc = f (l1.getD i da) (l2.getD i db) := by
  rw [List.getD_eq_getElem _ _ (by simp; omega : i < (List.zipWith f l1 l2).length),
    List.getD_eq_getElem _ _ h1, List.getD_eq_getElem _ _ h2]
  simp

theorem newsEncoder_forward_eq (N : NewsEncoder) (th e : ℚ → ℚ)
    (x : List (List (List ℚ))) (kpm : List (List ℚ))
    (smp : Option (List (List ℚ)))
    (h : matShape kpm = (x.length, (x.getD 0 []).length)) :
    N.forward th e x (some kpm) smp =
      some (List.zipWith (weightedSum N.linear.weight.length)
          (N.maskedWeights th e x kpm smp)
          ((N.multi_head_attention x kpm).1.map
            (fun row => row.map (fun v => (N.linear.apply v).map th))),
        (N.multi_head_attention x kpm).2,
        N.maskedWeights th e x kpm smp) := by
  simp [NewsEncoder.forward, NewsEncoder.maskedWeights, h]

theorem newsEncoder_forward_not_shape (N : NewsEncoder) (th e : ℚ → ℚ)
    (x : List (List (List ℚ))) (kpm : List (List ℚ))
    (smp : Option (List (List ℚ)))
    (h : matShape kpm ≠ (x.length, (x.getD 0 []).length)) :
    N.forward th e x (some kpm) smp = none := by
  simp only [NewsEncoder.forward]
  rw [if_neg h]

theorem map_getD {α β : Type} (f : α → β) (l : List α) (i : ℕ) (da : α) (db : β)
    (h : i < l.length) : (l.map f).getD i db = f (l.getD i da) := by
  rw [List.getD_eq_getElem _ _ (by simpa using h), List.getD_eq_getElem _ _ h,
    List.getElem_map]

/-- C1: for every `NewsEncoder.forward` call that succeeds (valid key-padding
mask), the output news vector is, coordinatewise, the weighted sum over the
length axis of `tanh(linear(context))`, where the weights are the
additive-attention probabilities computed on the contextualized
(pre-projection) vectors; when a softmax-padding mask is supplied those
weights are the elementwise product of the probabilities with the mask, with
no renormalization reapplied before the weighted sum. -/
theorem newsEncoder_forward_weighted_sum (N : NewsEncoder) (th e : ℚ → ℚ)
    (x : List (List (List ℚ))) (kpm : List (List ℚ))
    (smp : Option (List (List ℚ)))
    (out : List (List ℚ)) (cw : List (List (List ℚ))) (aw : List (List ℚ))
    (hbias : N.linear.bias.length = N.linear.weight.length)
    (hok : N.forward th e x (some kpm) smp = some (out, cw, aw)) :
    ∀ b, b < out.length →
      ((smp = none →
          aw.getD b [] =
            (N.additive_attention.forward th e
              (N.multi_head_attention x kpm).1).getD b []) ∧
        (∀ msk, smp = some msk →
          ∀ t, t < (aw.getD b []).length →
            (aw.getD b []).getD t 0 =
              ((N.additive_attention.forward th e
                  (N.multi_head_attention x kpm).1).getD b []).getD t 0 *
                (msk.getD b []).getD t 0) ∧
        ∀ j, j < N.linear.weight.length →
          (out.getD b []).getD j 0 =
            ∑ t ∈ Finset.range ((aw.getD b []).length),
              (aw.getD b []).getD t 0 *
                th ((N.linear.apply
                  (((N.multi_head_attention x kpm).1.getD b []).getD t [])).getD j 0)) := by
  intro b hb
  by_cases hs : matShape kpm = (x.length, (x.getD 0 []).length)
  case neg =>
    rw [newsEncoder_forward_not_shape N th e x kpm smp hs] at hok
    cases hok
  rw [newsEncoder_forward_eq N th e x kpm smp hs, Option.some.injEq,
    Prod.mk.injEq, Prod.mk.injEq] at hok
  obtain ⟨h1, _, h3⟩ := hok
  subst h1
  subst h3
  have hbmw : b < (N.maskedWeights th e x kpm smp).length := by
    rw [List.length_zipWith] at hb
    omega
  have hbtc : b < ((N.multi_head_attention x kpm).1.map
      (fun row => row.map (fun v => (N.linear.apply v).map th))).length := by
    rw [List.length_zipWith] at hb
    omega
  have hbc : b < (N.multi_head_attention x kpm).1.length := by
    rw [List.length_map] at hbtc
    exact hbtc
  have hTC_b : ((N.multi_head_attention x kpm).1.map
        (fun row => row.map (fun v => (N.linear.apply v).map th))).getD b []
      = ((N.multi_head_attention x kpm).1.getD b []).map
          (fun v => (N.linear.apply v).map th) :=
    map_getD _ _ b [] [] hbc
  have hP_b : (N.additive_attention.forward th e
        (N.multi_head_attention x kpm).1).getD b []
      = softmax e (((N.multi_head_attention x kpm).1.getD b []).map
          (fun v => dot ((N.additive_attention.proj.apply v).map th)
            N.additive_attention.proj_v)) :=
    map_getD _ _ b [] [] hbc
  have hP_b_len : ((N.additive_attention.forward th e
        (N.multi_head_attention x kpm).1).getD b []).length
      = ((N.multi_head_attention x kpm).1.getD b []).length := by
    rw [hP_b, softmax_length, List.length_map]
  have happly_len : ∀ v : List ℚ, (N.linear.apply v).length = N.linear.weight.length := by
    intro v
    simp [Linear.apply, hbias]
  have htcrows : ∀ r ∈ ((N.multi_head_attention x kpm).1.map
        (fun row => row.map (fun v => (N.linear.apply v).map th))).getD b [],
      r.length = N.linear.weight.length := by
    rw [hTC_b]
    intro r hr
    rcases List.mem_map.mp hr with ⟨v, _, rfl⟩
    simp [happly_len]
  have hle : ((N.maskedWeights th e x kpm smp).getD b []).length
      ≤ (((N.multi_head_attention x kpm).1.map
          (fun row => row.map (fun v => (N.linear.apply v).map th))).getD b []).length := by
    cases smp with
    | none =>
        have hmw : N.maskedWeights th e x kpm none
            = N.additive_attention.forward th e (N.multi_head_attention x kpm).1 := rfl
        rw [hmw, hP_b_len, hTC_b, List.length_map]
    | some msk =>
        have hmw : N.maskedWeights th e x kpm (some msk)
            = List.zipWith (List.zipWith (· * ·))
                (N.additive_attention.forward th e (N.multi_head_attention x kpm).1)
                msk := rfl
        rw [hmw] at hbmw ⊢
        rw [List.length_zipWith] at hbmw
        rw [zipWith_getD _ _ msk b [] [] [] (by omega) (by omega),
          List.length_zipWith, hTC_b, List.length_map]
        omega
  refine ⟨?_, ?_, ?_⟩
  · intro hnone
    subst hnone
    rfl
  · intro msk hsome t ht
    subst hsome
    have hmw : N.maskedWeights th e x kpm (some msk)
        = List.zipWith (List.zipWith (· * ·))
            (N.additive_attention.forward th e (N.multi_head_attention x kpm).1)
            msk := rfl
    rw [hmw] at hbmw
    rw [List.length_zipWith] at hbmw
    have hrow : (N.maskedWeights th e x kpm (some msk)).getD b []
        = List.zipWith (· * ·)
            ((N.additive_attention.forward th e
              (N.multi_head_attention x kpm).1).getD b [])
            (msk.getD b []) := by
      rw [hmw]
      exact zipWith_getD _ _ msk b [] [] [] (by omega) (by omega)
    rw [hrow] at ht ⊢
    rw [List.length_zipWith] at ht
    exact zipWith_getD _ _ _ t 0 0 0 (by omega) (by omega)
  · intro j hj
    have hout_b : (List.zipWith (weightedSum N.linear.weight.length)
          (N.maskedWeights th e x kpm smp)
          ((N.multi_head_attention x kpm).1.map
            (fun row => row.map (fun v => (N.linear.apply v).map th)))).getD b []
        = weightedSum N.linear.weight.length
            ((N.maskedWeights th e x kpm smp).getD b [])
            (((N.multi_head_attention x kpm).1.map
              (fun row => row.map (fun v => (N.linear.apply v).map th))).getD b []) :=
      zipWith_getD _ _ _ b [] [] [] hbmw hbtc
    rw [hout_b, weightedSum_getD _ j _ _ htcrows hj, min_eq_left hle]
    refine Finset.sum_congr rfl (fun t ht => ?_)
    have ht' : t < ((N.maskedWeights th e x kpm smp).getD b []).length := by
      simpa using ht
    have httc : t < (((N.multi_head_attention x kpm).1.map
        (fun row => row.map (fun v => (N.linear.apply v).map th))).getD b []).length := by
      omega
    have htctx : t < ((N.multi_head_attention x kpm).1.getD b []).length := by
      rw [hTC_b, List.length_map] at httc
      exact httc
    congr 1
    rw [hTC_b, map_getD _ _ t [] [] htctx]
    exact map_getD th _ j 0 0 (by rw [happly_len]; exact hj)

/-- Witness for C1 at a concrete input: batch 1, length 2, dim 1, identity
multi-head attention, tanh instantiated to the identity and the exponential to
the constant 1; the third conjunct is the weighted-sum identity at
`b = 0, j = 0` produced by the theorem. -/
theorem newsEncoder_forward_weighted_sum_witness :
    exNews.linear.bias.length = exNews.linear.weight.length ∧
    exNews.forward (fun q => q) (fun _ => 1) [[[1], [2]]] (some [[0, 0]]) (some [[1, 1]])
      = some ([[3/2]], [[[1], [2]]], [[1/2, 1/2]]) ∧
    (([[(3:ℚ)/2]] : List (List ℚ)).getD 0 []).getD 0 0 =
      ∑ t ∈ Finset.range ((([[(1:ℚ)/2, 1/2]] : List (List ℚ)).getD 0 []).length),
        (([[(1:ℚ)/2, 1/2]] : List (List ℚ)).getD 0 []).getD t 0 *
          (exNews.linear.apply
            (((exNews.multi_head_attention [[[1], [2]]] [[0, 0]]).1.getD 0 []).getD t
              [])).getD 0 0 := by
  have hok : exNews.forward (fun q => q) (fun _ => 1) [[[1], [2]]]
      (some [[0, 0]]) (some [[1, 1]])
      = some ([[3/2]], [[[1], [2]]], [[1/2, 1/2]]) := by
    norm_num [NewsEncoder.forward, AdditiveAttention.forward, exNews, exAdd, exLinearId,
      Linear.apply, softmax, dot, weightedSum, sumVecs, scaleVec, addVec, matShape]
  exact ⟨by decide, hok,
    (newsEncoder_forward_weighted_sum exNews (fun q => q) (fun _ => 1) [[[1], [2]]]
      [[0, 0]] (some [[1, 1]]) [[3/2]] [[[1], [2]]] [[1/2, 1/2]]
      (by decide) hok 0 (by decide)).2.2 0 (by decide)⟩

/-- C7: a `NewsEncoder.forward` call whose key-padding mask shape differs from
`(batch, length)` of the input embeddings fails the assertion immediately and
raises (result `none`), for every choice of the attention submodules — the
mismatch is never silently coerced. -/
theorem newsEncoder_forward_shape_mismatch_raises (N : NewsEncoder) (th e : ℚ → ℚ)
    (x : List (List (List ℚ))) (kpm : List (List ℚ)) (smp : Option (List (List ℚ)))
    (h : matShape kpm ≠ (x.length, (x.getD 0 []).length)) :
    N.forward th e x (some kpm) smp = none :=
  newsEncoder_forward_not_shape N th e x kpm smp h

/-- Witness for C7: a `(1, 1)` mask against a `(1, 2)` input raises. -/
theorem newsEncoder_forward_shape_mismatch_raises_witness :
    matShape [[0]] ≠ (([[[1], [2]]] : List (List (List ℚ))).length,
        (([[[1], [2]]] : List (List (List ℚ))).getD 0 []).length) ∧
    exNews.forward (fun q => q) (fun _ => 1) [[[1], [2]]] (some [[0]]) none = none :=
  ⟨by decide,
    newsEncoder_forward_shape_mismatch_raises exNews (fun q => q) (fun _ => 1)
      [[[1], [2]]] [[0]] none (by decide)⟩

/-- C9: although `NewsEncoder.forward` declares `key_padding_mask` with a
`None` default, every call that actually passes `None` raises: the shape
assertion dereferences the mask (`key_padding_mask.shape`) before any `None`
check, so at the public interface the mask is mandatory. -/
theorem newsEncoder_forward_none_mask_raises (N : NewsEncoder) (th e : ℚ → ℚ)
    (x : List (List (List ℚ))) (smp : Option (List (List ℚ))) :
    N.forward th e x none smp = none := rfl

/-- C4 (amended): the softmax-padding mask acts on the token axis inside the
News Encoder, not on the article axis of the User Encoder aggregation.  When
the mask row of one article is entirely zero, that article's additive weights
are all zero and its news vector is exactly the zero vector. -/
theorem newsEncoder_forward_zero_mask_row_zero_vector (N : NewsEncoder) (th e : ℚ → ℚ)
    (x : List (List (List ℚ))) (kpm msk : List (List ℚ))
    (out : List (List ℚ)) (cw : List (List (List ℚ))) (aw : List (List ℚ)) (i : ℕ)
    (hbias : N.linear.bias.length = N.linear.weight.length)
    (hok : N.forward th e x (some kpm) (some msk) = some (out, cw, aw))
    (hi : i < out.length)
    (hmask : ∀ c ∈ msk.getD i [], c = 0) :
    (∀ c ∈ aw.getD i [], c = 0) ∧
      out.getD i [] = List.replicate N.linear.weight.length 0 := by
  by_cases hs : matShape kpm = (x.length, (x.getD 0 []).length)
  case neg =>
    rw [newsEncoder_forward_not_shape N th e x kpm (some msk) hs] at hok
    cases hok
  rw [newsEncoder_forward_eq N th e x kpm (some msk) hs, Option.some.injEq,
    Prod.mk.injEq, Prod.mk.injEq] at hok
  obtain ⟨h1, _, h3⟩ := hok
  subst h1
  subst h3
  have hbmw : i < (N.maskedWeights th e x kpm (some msk)).length := by
    rw [List.length_zipWith] at hi
    omega
  have hbtc : i < ((N.multi_head_attention x kpm).1.map
      (fun row => row.map (fun v => (N.linear.apply v).map th))).length := by
    rw [List.length_zipWith] at hi
    omega
  have hmw : N.maskedWeights th e x kpm (some msk)
      = List.zipWith (List.zipWith (· * ·))
          (N.additive_attention.forward th e (N.multi_head_attention x kpm).1)
          msk := rfl
  have hbmw' := hbmw
  rw [hmw, List.length_zipWith] at hbmw'
  have hrow : (N.maskedWeights th e x kpm (some msk)).getD i []
      = List.zipWith (· * ·)
          ((N.additive_attention.forward th e
            (N.multi_head_attention x kpm).1).getD i [])
          (msk.getD i []) := by
    rw [hmw]
    exact zipWith_getD _ _ msk i [] [] [] (by omega) (by omega)
  have hawzero : ∀ c ∈ (N.maskedWeights th e x kpm (some msk)).getD i [], c = 0 := by
    rw [hrow]
    intro c hc
    rcases zipWith_mem_ex _ _ _ c hc with ⟨p, _, mv, hmv, rfl⟩
    rw [hmask mv hmv, mul_zero]
  have hbc : i < (N.multi_head_attention x kpm).1.length := by
    rw [List.length_map] at hbtc
    exact hbtc
  have hTC_i : ((N.multi_head_attention x kpm).1.map
        (fun row => row.map (fun v => (N.linear.apply v).map th))).getD i []
      = ((N.multi_head_attention x kpm).1.getD i []).map
          (fun v => (N.linear.apply v).map th) :=
    map_getD _ _ i [] [] hbc
  have htcrows : ∀ r ∈ ((N.multi_head_attention x kpm).1.map
        (fun row => row.map (fun v => (N.linear.apply v).map th))).getD i [],
      r.length = N.linear.weight.length := by
    rw [hTC_i]
    intro r hr
    rcases List.mem_map.mp hr with ⟨v, _, rfl⟩
    simp [Linear.apply, hbias]
  refine ⟨hawzero, ?_⟩
  have hout_i : (List.zipWith (weightedSum N.linear.weight.length)
        (N.maskedWeights th e x kpm (some msk))
        ((N.multi_head_attention x kpm).1.map
          (fun row => row.map (fun v => (N.linear.apply v).map th)))).getD i []
      = weightedSum N.linear.weight.length
          ((N.maskedWeights th e x kpm (some msk)).getD i [])
          (((N.multi_head_attention x kpm).1.map
            (fun row => row.map (fun v => (N.linear.apply v).map th))).getD i []) :=
    zipWith_getD _ _ _ i [] [] [] hbmw hbtc
  rw [hout_i]
  exact weightedSum_zero_weights _ _ _ htcrows hawzero

/-- Witness for the amended C4: a single article whose softmax-padding mask
row is all zeros yields the zero news vector. -/
theorem newsEncoder_forward_zero_mask_row_zero_vector_witness :
    (exNews.linear.bias.length = exNews.linear.weight.length ∧
      exNews.forward (fun q => q) (fun _ => 1) [[[5]]] (some [[0]]) (some [[0]])
        = some ([[0]], [[[5]]], [[0]]) ∧
      (0:ℕ) < ([[(0:ℚ)]] : List (List ℚ)).length ∧
      ∀ c ∈ ([[(0:ℚ)]] : List (List ℚ)).getD 0 [], c = 0) ∧
    ((∀ c ∈ ([[(0:ℚ)]] : List (List ℚ)).getD 0 [], c = 0) ∧
      ([[(0:ℚ)]] : List (List ℚ)).getD 0 []
        = List.replicate exNews.linear.weight.length 0) := by
  have hok : exNews.forward (fun q => q) (fun _ => 1) [[[5]]] (some [[0]]) (some [[0]])
      = some ([[0]], [[[5]]], [[0]]) := by
    norm_num [NewsEncoder.forward, AdditiveAttention.forward, exNews, exAdd, exLinearId,
      Linear.apply, softmax, dot, weightedSum, sumVecs, scaleVec, addVec, matShape]
  exact ⟨⟨by decide, hok, by decide, by decide⟩,
    newsEncoder_forward_zero_mask_row_zero_vector exNews (fun q => q) (fun _ => 1)
      [[[5]]] [[0]] [[0]] [[0]] [[[5]]] [[0]] 0 (by decide) hok (by decide)
      (by decide)⟩

/-- Counterexample for C4: in the clicked-history path the softmax-padding
mask is routed into the News Encoder and acts on the token axis; it is NOT
applied to the User Encoder's additive weights.  Concretely, with two articles
and a mask zeroing out article 0 entirely, the masked article gets User
Encoder additive weight 1/2 (not 0), and the produced user vector `[[2]]`
differs from the aggregation `[[3/2]]` in which article 0's weight actually is
zeroed — so the masked article's contribution to the user vector is nonzero. -/
theorem nrms_softmax_mask_user_contribution_cex :
    exM.forward_user_encoder (fun q => q) (fun _ => 1)
        [[[1], [2]]] [[[1], [1]]] [[[0], [0]]] (some [[[0], [1]]]) = some [[2]] ∧
    exM.user_encoder.additive_attention.forward (fun q => q) (fun _ => 1)
        [[[0], [2]]] = [[1/2, 1/2]] ∧
    weightedSum 1 [0, 1/2]
        (((exM.user_encoder.multi_head_attention [[[0], [2]]]).1.getD 0 []).map
          (fun v => (exM.user_encoder.linear.apply v).map (fun q => q))) = [3/2] ∧
    ([[(2:ℚ)]] : List (List ℚ)) ≠ [[3/2]] := by
  refine ⟨?_, ?_, ?_, ?_⟩
  · norm_num [NRMS.forward_user_encoder, NRMS.forward_news_encoder,
      NRMS.forward_doc_encoder, NewsEncoder.forward, UserEncoder.forward,
      AdditiveAttention.forward, exM, exDoc, exNews, exUser, exAdd, exLinearId,
      exLinearBias, Linear.apply, softmax, dot, weightedSum, sumVecs, scaleVec,
      addVec, matShape, unflatten, List.range_succ]
  · norm_num [AdditiveAttention.forward, exM, exUser, exAdd, exLinearId,
      exLinearBias, Linear.apply, softmax, dot]
  · norm_num [exM, exUser, exAdd, exLinearId, exLinearBias, Linear.apply, dot,
      weightedSum, sumVecs, scaleVec, addVec]
  · norm_num

/- ### Accumulator lemmas -/

theorem runTrainingSteps_outputs (s : NRMSState) (ls : List ℚ) :
    (runTrainingSteps s ls).training_step_outputs = s.training_step_outputs ++ ls := by
  induction ls generalizing s with
  | nil => simp [runTrainingSteps]
  | cons a l ih =>
      have hstep : runTrainingSteps s (a :: l) = runTrainingSteps
          { s with training_step_outputs := s.training_step_outputs ++ [a] } l := rfl
      rw [hstep, ih]
      simp

theorem runValidationSteps_outputs (s : NRMSState) (ls : List ℚ) :
    (runValidationSteps s ls).validating_step_outputs
      = s.validating_step_outputs ++ ls := by
  induction ls generalizing s with
  | nil => simp [runValidationSteps]
  | cons a l ih =>
      have hstep : runValidationSteps s (a :: l) = runValidationSteps
          { s with validating_step_outputs := s.validating_step_outputs ++ [a] } l := rfl
      rw [hstep, ih]
      simp

theorem runTestSteps_outputs (s : NRMSState) (ls : List ℚ) :
    (runTestSteps s ls).testing_step_outputs = s.testing_step_outputs ++ ls := by
  induction ls generalizing s with
  | nil => simp [runTestSteps]
  | cons a l ih =>
      have hstep : runTestSteps s (a :: l) = runTestSteps
          { s with testing_step_outputs := s.testing_step_outputs ++ [a] } l := rfl
      rw [hstep, ih]
      simp

theorem listMean_eq_none (l : List ℚ) : listMean l = none ↔ l = [] := by
  unfold listMean
  split_ifs with h <;> simp [h]

/-- C6: starting from empty accumulators, after any nonempty sequences of
training/validation/test steps with given per-step losses, each epoch-end hook
reports exactly the arithmetic mean (sum divided by count) of all the
accumulated per-step losses, and the corresponding accumulator is empty
immediately afterwards. -/
theorem epoch_end_mean_and_reset (s : NRMSState) (ls vs ts : List ℚ)
    (htr : s.training_step_outputs = []) (hva : s.validating_step_outputs = [])
    (hte : s.testing_step_outputs = [])
    (hls : ls ≠ []) (hvs : vs ≠ []) (hts : ts ≠ []) :
    (∃ s2, (runTrainingSteps s ls).on_train_epoch_end
        = some (ls.sum / (ls.length : ℚ), s2) ∧ s2.training_step_outputs = []) ∧
    (∃ s2, (runValidationSteps s vs).on_validation_epoch_end
        = some (vs.sum / (vs.length : ℚ), s2) ∧ s2.validating_step_outputs = []) ∧
    (∃ s2, (runTestSteps s ts).on_test_epoch_end
        = some (ts.sum / (ts.length : ℚ), s2) ∧ s2.testing_step_outputs = []) := by
  refine ⟨?_, ?_, ?_⟩
  · have h1 : (runTrainingSteps s ls).training_step_outputs = ls := by
      rw [runTrainingSteps_outputs, htr, List.nil_append]
    refine ⟨{ runTrainingSteps s ls with training_step_outputs := [] }, ?_, rfl⟩
    simp [NRMSState.on_train_epoch_end, listMean, h1, hls]
  · have h1 : (runValidationSteps s vs).validating_step_outputs = vs := by
      rw [runValidationSteps_outputs, hva, List.nil_append]
    refine ⟨{ runValidationSteps s vs with validating_step_outputs := [] }, ?_, rfl⟩
    simp [NRMSState.on_validation_epoch_end, listMean, h1, hvs]
  · have h1 : (runTestSteps s ts).testing_step_outputs = ts := by
      rw [runTestSteps_outputs, hte, List.nil_append]
    refine ⟨{ runTestSteps s ts with testing_step_outputs := [] }, ?_, rfl⟩
    simp [NRMSState.on_test_epoch_end, listMean, h1, hts]

/-- Witness for C6 at the spec's concrete scenario: per-step losses
`[1.0, 2.0, 3.0]` give epoch-end average `2.0` with the accumulator empty
afterwards, in all three loops. -/
theorem epoch_end_mean_and_reset_witness :
    ((∃ s2, (runTrainingSteps ⟨[], [], []⟩ [1, 2, 3]).on_train_epoch_end
        = some (([1, 2, 3] : List ℚ).sum / (([1, 2, 3] : List ℚ).length : ℚ), s2) ∧
        s2.training_step_outputs = []) ∧
      (∃ s2, (runValidationSteps ⟨[], [], []⟩ [1, 2, 3]).on_validation_epoch_end
        = some (([1, 2, 3] : List ℚ).sum / (([1, 2, 3] : List ℚ).length : ℚ), s2) ∧
        s2.validating_step_outputs = []) ∧
      (∃ s2, (runTestSteps ⟨[], [], []⟩ [1, 2, 3]).on_test_epoch_end
        = some (([1, 2, 3] : List ℚ).sum / (([1, 2, 3] : List ℚ).length : ℚ), s2) ∧
        s2.testing_step_outputs = [])) ∧
    ([1, 2, 3] : List ℚ).sum / (([1, 2, 3] : List ℚ).length : ℚ) = 2 :=
  ⟨epoch_end_mean_and_reset ⟨[], [], []⟩ [1, 2, 3] [1, 2, 3] [1, 2, 3]
      rfl rfl rfl (by decide) (by decide) (by decide),
    by norm_num⟩

/-- C10: each epoch-end hook stacks its accumulator unconditionally
(`torch.stack` raises on an empty list), so the hook fails exactly when the
epoch ends with zero accumulated step losses; it is safe only after at least
one corresponding step. -/
theorem epoch_end_empty_accumulator_raises (s : NRMSState) :
    (s.on_train_epoch_end = none ↔ s.training_step_outputs = []) ∧
    (s.on_validation_epoch_end = none ↔ s.validating_step_outputs = []) ∧
    (s.on_test_epoch_end = none ↔ s.testing_step_outputs = []) := by
  refine ⟨?_, ?_, ?_⟩
  · rw [NRMSState.on_train_epoch_end, Option.map_eq_none', listMean_eq_none]
  · rw [NRMSState.on_validation_epoch_end, Option.map_eq_none', listMean_eq_none]
  · rw [NRMSState.on_test_epoch_end, Option.map_eq_none', listMean_eq_none]

/- ### NRMS.forward validation lemmas -/

theorem nrms_forward_all_some (m : NRMS) (th e : ℚ → ℚ)
    (a b c d f g : List (List (List ℚ))) (csmp : Option (List (List (List ℚ)))) :
    m.forward th e (some a) (some b) (some c) csmp (some d) (some f) (some g)
      = match m.forward_news_encoder th e d f g none with
        | none => Except.error "AssertionError"
        | some nres =>
          match m.forward_user_encoder th e a b c csmp with
          | none => Except.error "AssertionError"
          | some uv =>
              Except.ok (squeeze2 (bmm nres.1 (unsqueeze2 uv)), nres.2.1, nres.2.2) := rfl

theorem nrms_forward_all_some_not_field_error (m : NRMS) (th e : ℚ → ℚ)
    (a b c d f g : List (List (List ℚ))) (csmp : Option (List (List (List ℚ)))) :
    ∀ s ∈ requiredFieldErrors,
      m.forward th e (some a) (some b) (some c) csmp (some d) (some f) (some g)
        ≠ Except.error s := by
  intro s hs
  rw [nrms_forward_all_some]
  cases hn : m.forward_news_encoder th e d f g none with
  | none =>
      intro hcontra
      simp at hcontra
      subst hcontra
      revert hs
      decide
  | some nres =>
      cases hu : m.forward_user_encoder th e a b c csmp with
      | none =>
          intro hcontra
          simp at hcontra
          subst hcontra
          revert hs
          decide
      | some uv =>
          intro hcontra
          simp at hcontra

/-- C8: `NRMS.forward` raises an explicit error naming the absent field if and
only if one of the six required inputs is `None`; the checks run in source
order, and the clicked softmax-padding mask is optional — its absence never
triggers this validation (it is universally quantified here, including
`none`). -/
theorem nrms_forward_required_field_validation (m : NRMS) (th e : ℚ → ℚ)
    (cids cam ckpm csmp lids lam lkpm : Option (List (List (List ℚ)))) :
    ((m.forward th e cids cam ckpm csmp lids lam lkpm
          = Except.error "clicked_ids must be provided." ∨
        m.forward th e cids cam ckpm csmp lids lam lkpm
          = Except.error "clicked_attention_mask must be provided." ∨
        m.forward th e cids cam ckpm csmp lids lam lkpm
          = Except.error "clicked_key_padding_mask must be provided." ∨
        m.forward th e cids cam ckpm csmp lids lam lkpm
          = Except.error "labeled_ids must be provided." ∨
        m.forward th e cids cam ckpm csmp lids lam lkpm
          = Except.error "labeled_attention_mask must be provided." ∨
        m.forward th e cids cam ckpm csmp lids lam lkpm
          = Except.error "labeled_key_padding_mask must be provided.")
      ↔ (cids = none ∨ cam = none ∨ ckpm = none ∨ lids = none ∨ lam = none ∨
          lkpm = none)) ∧
    (cids = none →
      m.forward th e cids cam ckpm csmp lids lam lkpm
        = Except.error "clicked_ids must be provided.") ∧
    (cids ≠ none → cam = none →
      m.forward th e cids cam ckpm csmp lids lam lkpm
        = Except.error "clicked_attention_mask must be provided.") ∧
    (cids ≠ none → cam ≠ none → ckpm = none →
      m.forward th e cids cam ckpm csmp lids lam lkpm
        = Except.error "clicked_key_padding_mask must be provided.") ∧
    (cids ≠ none → cam ≠ none → ckpm ≠ none → lids = none →
      m.forward th e cids cam ckpm csmp lids lam lkpm
        = Except.error "labeled_ids must be provided.") ∧
    (cids ≠ none → cam ≠ none → ckpm ≠ none → lids ≠ none → lam = none →
      m.forward th e cids cam ckpm csmp lids lam lkpm
        = Except.error "labeled_attention_mask must be provided.") ∧
    (cids ≠ none → cam ≠ none → ckpm ≠ none → lids ≠ none → lam ≠ none →
      lkpm = none →
      m.forward th e cids cam ckpm csmp lids lam lkpm
        = Except.error "labeled_key_padding_mask must be provided.") := by
  rcases cids with _ | a <;> rcases cam with _ | b <;> rcases ckpm with _ | c <;>
    rcases lids with _ | d <;> rcases lam with _ | f <;> rcases lkpm with _ | g <;>
    simp [NRMS.forward]
  refine ⟨?_, ?_, ?_, ?_, ?_, ?_⟩
  · exact fun h => nrms_forward_all_some_not_field_error m th e a b c d f g csmp
      "clicked_ids must be provided." (by decide)
      (by rw [nrms_forward_all_some]; exact h)
  · exact fun h => nrms_forward_all_some_not_field_error m th e a b c d f g csmp
      "clicked_attention_mask must be provided." (by decide)
      (by rw [nrms_forward_all_some]; exact h)
  · exact fun h => nrms_forward_all_some_not_field_error m th e a b c d f g csmp
      "clicked_key_padding_mask must be provided." (by decide)
      (by rw [nrms_forward_all_some]; exact h)
  · exact fun h => nrms_forward_all_some_not_field_error m th e a b c d f g csmp
      "labeled_ids must be provided." (by decide)
      (by rw [nrms_forward_all_some]; exact h)
  · exact fun h => nrms_forward_all_some_not_field_error m th e a b c d f g csmp
      "labeled_attention_mask must be provided." (by decide)
      (by rw [nrms_forward_all_some]; exact h)
  · exact fun h => nrms_forward_all_some_not_field_error m th e a b c d f g csmp
      "labeled_key_padding_mask must be provided." (by decide)
      (by rw [nrms_forward_all_some]; exact h)

/-- Witness for C8: with `clicked_ids` absent the forward pass reports exactly
that field. -/
theorem nrms_forward_required_field_validation_witness :
    exM.forward (fun q => q) (fun _ => 1) none none none none none none none
      = Except.error "clicked_ids must be provided." :=
  (nrms_forward_required_field_validation exM (fun q => q) (fun _ => 1)
    none none none none none none none).2.1 rfl

/- ### Scoring lemmas -/

theorem squeeze_bmm_unsqueeze (nv : List (List (List ℚ))) (uv : List (List ℚ)) :
    squeeze2 (bmm nv (unsqueeze2 uv))
      = List.zipWith (fun cands v => cands.map (fun cvec => dot cvec v)) nv uv := by
  unfold squeeze2 bmm unsqueeze2
  rw [List.zipWith_map_right, List.map_zipWith]
  congr 1
  funext cands v
  cases v with
  | nil => simp [matmul, dot]
  | cons c cs =>
      simp only [matmul, List.map_map]
      congr 1
      funext row
      simp only [Function.comp]
      show ((List.range 1).map (fun j =>
          (List.zipWith (fun a brow => a * brow.getD j 0) row
            ((c :: cs).map (fun q => [q]))).sum)).getD 0 0 = dot row (c :: cs)
      rw [show List.range 1 = [0] from rfl]
      simp only [List.map_cons, List.map_nil, List.getD_cons_zero]
      rw [show ([c] :: List.map (fun q => [q]) cs : List (List ℚ))
          = List.map (fun q => [q]) (c :: cs) from rfl,
        List.zipWith_map_right]
      rfl

/-- C2: whenever the labeled candidates encode to news vectors of shape
`(U, K+1, d)` and the clicked history encodes to user vectors of shape
`(U, d)`, `NRMS.forward` succeeds and returns the score tensor of shape
`(U, K+1)` whose entry `score[u][k]` is the dot product of candidate news
vector `k` of user `u` with the user vector of user `u` — the batched
matrix-vector product `bmm(news, user.unsqueeze(2)).squeeze(2)` computes
exactly the rowwise dot products. -/
theorem nrms_forward_scores (m : NRMS) (th e : ℚ → ℚ)
    (cids cam ckpm : List (List (List ℚ))) (csmp : Option (List (List (List ℚ))))
    (lids lam lkpm : List (List (List ℚ)))
    (nv cw : List (List (List ℚ))) (aw : List (List ℚ))
    (uv : List (List ℚ)) (U K1 : ℕ)
    (hnews : m.forward_news_encoder th e lids lam lkpm none = some (nv, cw, aw))
    (huser : m.forward_user_encoder th e cids cam ckpm csmp = some uv)
    (hnvU : nv.length = U) (hnvK : ∀ r ∈ nv, r.length = K1)
    (huvU : uv.length = U) :
    m.forward th e (some cids) (some cam) (some ckpm) csmp (some lids) (some lam)
        (some lkpm)
      = Except.ok
          (List.zipWith (fun cands v => cands.map (fun cvec => dot cvec v)) nv uv,
            cw, aw) ∧
    (List.zipWith (fun cands v => cands.map (fun cvec => dot cvec v)) nv uv).length
      = U ∧
    ∀ row ∈ List.zipWith (fun cands v => cands.map (fun cvec => dot cvec v)) nv uv,
      row.length = K1 := by
  refine ⟨?_, ?_, ?_⟩
  · rw [nrms_forward_all_some]
    simp only [hnews, huser]
    rw [squeeze_bmm_unsqueeze]
  · rw [List.length_zipWith]
    omega
  · intro row hrow
    rcases zipWith_mem_ex _ nv uv row hrow with ⟨cands, hc, v, _, rfl⟩
    rw [List.length_map]
    exact hnvK cands hc

/-- Witness for C2: one user, one candidate, 1-dimensional encoders; the score
is the dot product `dot [3] [3] = 9`. -/
theorem nrms_forward_scores_witness :
    (exM.forward_news_encoder (fun q => q) (fun _ => 1) [[[3]]] [[[1]]] [[[0]]] none
        = some ([[[3]]], [[[3]]], [[1]]) ∧
      exM.forward_user_encoder (fun q => q) (fun _ => 1) [[[2]]] [[[1]]] [[[0]]] none
        = some [[3]]) ∧
    (exM.forward (fun q => q) (fun _ => 1) (some [[[2]]]) (some [[[1]]]) (some [[[0]]])
        none (some [[[3]]]) (some [[[1]]]) (some [[[0]]])
      = Except.ok
          (List.zipWith (fun cands v => cands.map (fun cvec => dot cvec v))
            [[[3]]] [[3]], [[[3]]], [[1]]) ∧
      (List.zipWith (fun cands v => cands.map (fun cvec => dot cvec v))
        [[[3]]] [[3]]).length = 1 ∧
      ∀ row ∈ List.zipWith (fun cands v => cands.map (fun cvec => dot cvec v))
          [[[3]]] [[3]],
        row.length = 1) := by
  have hnews : exM.forward_news_encoder (fun q => q) (fun _ => 1)
      [[[3]]] [[[1]]] [[[0]]] none = some ([[[3]]], [[[3]]], [[1]]) := by
    norm_num [NRMS.forward_news_encoder, NRMS.forward_doc_encoder, NewsEncoder.forward,
      AdditiveAttention.forward, exM, exDoc, exNews, exAdd, exLinearId, Linear.apply,
      softmax, dot, weightedSum, sumVecs, scaleVec, addVec, matShape, unflatten,
      List.range_succ]
  have huser : exM.forward_user_encoder (fun q => q) (fun _ => 1)
      [[[2]]] [[[1]]] [[[0]]] none = some [[3]] := by
    norm_num [NRMS.forward_user_encoder, NRMS.forward_news_encoder,
      NRMS.forward_doc_encoder, NewsEncoder.forward, UserEncoder.forward,
      AdditiveAttention.forward, exM, exDoc, exNews, exUser, exAdd, exLinearId,
      exLinearBias, Linear.apply, softmax, dot, weightedSum, sumVecs, scaleVec,
      addVec, matShape, unflatten, List.range_succ]
  exact ⟨⟨hnews, huser⟩,
    nrms_forward_scores exM (fun q => q) (fun _ => 1) [[[2]]] [[[1]]] [[[0]]] none
      [[[3]]] [[[1]]] [[[0]]] [[[3]]] [[[3]]] [[1]] [[3]] 1 1
      hnews huser (by decide) (by decide) (by decide)⟩

/- ### View/unflatten lemmas -/

theorem unflatten_length {α : Type} (u t : ℕ) (l : List α) :
    (unflatten u t l).length = u := by
  simp [unflatten]

theorem unflatten_getD {α : Type} (u t : ℕ) (l : List α) (i : ℕ) (h : i < u) :
    (unflatten u t l).getD i [] = (l.drop (i * t)).take t := by
  rw [List.getD_eq_getElem _ _ (by simpa [unflatten] using h)]
  simp [unflatten]

theorem mem_unflatten {α : Type} (u t : ℕ) (l : List α) (r : List α)
    (hr : r ∈ unflatten u t l) : ∃ i, i < u ∧ r = (l.drop (i * t)).take t := by
  rcases List.mem_map.mp hr with ⟨i, hi, rfl⟩
  exact ⟨i, List.mem_range.mp hi, rfl⟩

theorem flatten_unflatten {α : Type} (u t : ℕ) (l : List α) :
    (unflatten u t l).flatten = l.take (u * t) := by
  induction u with
  | zero => simp [unflatten]
  | succ u ih =>
      have : unflatten (u + 1) t l
          = unflatten u t l ++ [(l.drop (u * t)).take t] := by
        simp [unflatten, List.range_succ]
      rw [this, List.flatten_append, ih]
      simp [Nat.succ_mul, List.take_add]

theorem userEncoder_forward_shape (Ue : UserEncoder) (th e : ℚ → ℚ)
    (x : List (List (List ℚ)))
    (hmha : ((Ue.multi_head_attention x).1).length = x.length)
    (hbu : Ue.linear.bias.length = Ue.linear.weight.length) :
    (Ue.forward th e x).length = x.length ∧
    ∀ v ∈ Ue.forward th e x, v.length = Ue.linear.weight.length := by
  constructor
  · simp only [UserEncoder.forward, List.length_zipWith, AdditiveAttention.forward,
      List.length_map]
    omega
  · intro v hv
    simp only [UserEncoder.forward] at hv
    rcases zipWith_mem_ex _ _ _ v hv with ⟨w, _, rows, hrows, rfl⟩
    rcases List.mem_map.mp hrows with ⟨ctxrow, _, rfl⟩
    refine weightedSum_length _ _ _ ?_
    intro rr hrr
    rcases List.mem_map.mp hrr with ⟨vv, _, rfl⟩
    simp [Linear.apply, hbu]

theorem weighted_rows_mem_length (lin : Linear) (th : ℚ → ℚ)
    (aw : List (List ℚ)) (context : List (List (List ℚ))) (v : List ℚ)
    (hb : lin.bias.length = lin.weight.length)
    (hv : v ∈ List.zipWith (weightedSum lin.weight.length) aw
        (context.map (fun row => row.map (fun vv => (lin.apply vv).map th)))) :
    v.length = lin.weight.length := by
  rcases zipWith_mem_ex _ _ _ v hv with ⟨w, _, rows, hrows, rfl⟩
  rcases List.mem_map.mp hrows with ⟨ctxrow, _, rfl⟩
  refine weightedSum_length _ _ _ ?_
  intro rr hrr
  rcases List.mem_map.mp hrr with ⟨vv, _, rfl⟩
  simp [Linear.apply, hb]

theorem nrms_encoder_shape_invariants (m : NRMS) (th e : ℚ → ℚ)
    (ids am kpm : List (List (List ℚ))) (smp : Option (List (List (List ℚ))))
    (U A L : ℕ) (hU : 0 < U) (hA : 0 < A)
    (hidslen : ids.length = U) (hidsrow : ∀ r ∈ ids, r.length = A)
    (hdoclen : (m.doc_encoder.encode ids.flatten am.flatten).length = U * A)
    (hdocrow : ∀ r ∈ m.doc_encoder.encode ids.flatten am.flatten, r.length = L)
    (hkpmlen : kpm.flatten.length = U * A)
    (hkpmrow : ∀ r ∈ kpm.flatten, r.length = L)
    (hsmp : ∀ msk, smp = some msk → msk.flatten.length = U * A)
    (hmhan : ∀ (x : List (List (List ℚ))) (k : List (List ℚ)),
      ((m.news_encoder.multi_head_attention x k).1).length = x.length)
    (hmhau : ∀ x : List (List (List ℚ)),
      ((m.user_encoder.multi_head_attention x).1).length = x.length)
    (hbn : m.news_encoder.linear.bias.length = m.news_encoder.linear.weight.length)
    (hwn : m.news_encoder.linear.weight.length = m.encoder_dim)
    (hbu : m.user_encoder.linear.bias.length = m.user_encoder.linear.weight.length)
    (hwu : m.user_encoder.linear.weight.length = m.encoder_dim) :
    (∃ nv cw aw, m.forward_news_encoder th e ids am kpm smp = some (nv, cw, aw) ∧
      nv.length = U ∧
      ∀ r ∈ nv, r.length = A ∧ ∀ v ∈ r, v.length = m.encoder_dim) ∧
    ∃ uv, m.forward_user_encoder th e ids am kpm smp = some uv ∧
      uv.length = U ∧ ∀ v ∈ uv, v.length = m.encoder_dim := by
  have h0UA : 0 < U * A := Nat.mul_pos hU hA
  have hAle : A ≤ U * A := Nat.le_mul_of_pos_left A hU
  have hids0 : (ids.getD 0 []).length = A := by
    have h0 : 0 < ids.length := by omega
    rw [List.getD_eq_getElem _ _ h0]
    exact hidsrow _ (List.getElem_mem h0)
  have hdoc4 : m.forward_doc_encoder ids am
      = unflatten U A (m.doc_encoder.encode ids.flatten am.flatten) := by
    simp only [NRMS.forward_doc_encoder]
    rw [hidslen, hids0]
  have hflat : (m.forward_doc_encoder ids am).flatten
      = m.doc_encoder.encode ids.flatten am.flatten := by
    rw [hdoc4, flatten_unflatten, ← hdoclen, List.take_length]
  have hemb4len : (m.forward_doc_encoder ids am).length = U := by
    rw [hdoc4, unflatten_length]
  have htitles : ((m.forward_doc_encoder ids am).getD 0 []).length = A := by
    rw [hdoc4, unflatten_getD U A _ 0 hU]
    simp [List.length_take, List.length_drop, hdoclen]
    omega
  have hE0len : ((m.doc_encoder.encode ids.flatten am.flatten).getD 0 []).length = L := by
    have h0 : 0 < (m.doc_encoder.encode ids.flatten am.flatten).length := by omega
    rw [List.getD_eq_getElem _ _ h0]
    exact hdocrow _ (List.getElem_mem h0)
  have hk0len : (kpm.flatten.getD 0 []).length = L := by
    have h0 : 0 < kpm.flatten.length := by omega
    rw [List.getD_eq_getElem _ _ h0]
    exact hkpmrow _ (List.getElem_mem h0)
  have hshapeE : matShape kpm.flatten
      = ((m.doc_encoder.encode ids.flatten am.flatten).length,
        ((m.doc_encoder.encode ids.flatten am.flatten).getD 0 []).length) := by
    rw [matShape, hkpmlen, hk0len, hdoclen, hE0len]
  have hfwd := newsEncoder_forward_eq m.news_encoder th e
    (m.doc_encoder.encode ids.flatten am.flatten) kpm.flatten
    (smp.map List.flatten) hshapeE
  have hfn : m.forward_news_encoder th e ids am kpm smp
      = some (unflatten U A
          (List.zipWith (weightedSum m.news_encoder.linear.weight.length)
            (m.news_encoder.maskedWeights th e
              (m.doc_encoder.encode ids.flatten am.flatten) kpm.flatten
              (smp.map List.flatten))
            ((m.news_encoder.multi_head_attention
                (m.doc_encoder.encode ids.flatten am.flatten) kpm.flatten).1.map
              (fun row => row.map (fun v => (m.news_encoder.linear.apply v).map th)))),
          (m.news_encoder.multi_head_attention
            (m.doc_encoder.encode ids.flatten am.flatten) kpm.flatten).2,
          m.news_encoder.maskedWeights th e
            (m.doc_encoder.encode ids.flatten am.flatten) kpm.flatten
            (smp.map List.flatten)) := by
    simp only [NRMS.forward_news_encoder]
    rw [hflat, hemb4len, htitles]
    simp only [hfwd]
  have hctxlen : ((m.news_encoder.multi_head_attention
      (m.doc_encoder.encode ids.flatten am.flatten) kpm.flatten).1).length = U * A := by
    rw [hmhan, hdoclen]
  have hprobslen : (m.news_encoder.additive_attention.forward th e
      (m.news_encoder.multi_head_attention
        (m.doc_encoder.encode ids.flatten am.flatten) kpm.flatten).1).length
      = U * A := by
    simp only [AdditiveAttention.forward, List.length_map]
    exact hctxlen
  have hAWlen : (m.news_encoder.maskedWeights th e
      (m.doc_encoder.encode ids.flatten am.flatten) kpm.flatten
      (smp.map List.flatten)).length = U * A := by
    cases smp with
    | none =>
        simpa [NewsEncoder.maskedWeights] using hprobslen
    | some msk =>
        have hmw : m.news_encoder.maskedWeights th e
            (m.doc_encoder.encode ids.flatten am.flatten) kpm.flatten
            (Option.map List.flatten (some msk))
            = List.zipWith (List.zipWith (· * ·))
                (m.news_encoder.additive_attention.forward th e
                  (m.news_encoder.multi_head_attention
                    (m.doc_encoder.encode ids.flatten am.flatten) kpm.flatten).1)
                msk.flatten := rfl
        rw [hmw, List.length_zipWith, hprobslen, hsmp msk rfl]
        omega
  have hTClen : ((m.news_encoder.multi_head_attention
      (m.doc_encoder.encode ids.flatten am.flatten) kpm.flatten).1.map
        (fun row => row.map (fun v => (m.news_encoder.linear.apply v).map th))).length
      = U * A := by
    rw [List.length_map]
    exact hctxlen
  have hOUTlen : (List.zipWith (weightedSum m.news_encoder.linear.weight.length)
      (m.news_encoder.maskedWeights th e
        (m.doc_encoder.encode ids.flatten am.flatten) kpm.flatten
        (smp.map List.flatten))
      ((m.news_encoder.multi_head_attention
          (m.doc_encoder.encode ids.flatten am.flatten) kpm.flatten).1.map
        (fun row => row.map (fun v => (m.news_encoder.linear.apply v).map th)))).length
      = U * A := by
    rw [List.length_zipWith, hAWlen, hTClen]
    omega
  refine ⟨⟨_, _, _, hfn, by rw [unflatten_length], ?_⟩, ?_⟩
  · intro r hr
    rcases mem_unflatten _ _ _ r hr with ⟨i, hi, rfl⟩
    have hmul : i * A + A ≤ U * A := by
      have h1 : (i + 1) * A ≤ U * A := Nat.mul_le_mul_right A (by omega)
      rw [Nat.succ_mul] at h1
      omega
    constructor
    · simp only [List.length_take, List.length_drop, hOUTlen]
      omega
    · intro v hv
      have hvout := List.mem_of_mem_drop (List.mem_of_mem_take hv)
      rw [← hwn]
      exact weighted_rows_mem_length m.news_encoder.linear th _ _ v hbn hvout
  · -- the user-encoder path
    have hdim0 : (((unflatten U A
        (List.zipWith (weightedSum m.news_encoder.linear.weight.length)
          (m.news_encoder.maskedWeights th e
            (m.doc_encoder.encode ids.flatten am.flatten) kpm.flatten
            (smp.map List.flatten))
          ((m.news_encoder.multi_head_attention
              (m.doc_encoder.encode ids.flatten am.flatten) kpm.flatten).1.map
            (fun row => row.map
              (fun v => (m.news_encoder.linear.apply v).map th))))).getD 0 []).getD 0
        []).length = m.encoder_dim := by
      rw [unflatten_getD U A _ 0 hU, Nat.zero_mul, List.drop_zero]
      have h0' : 0 < ((List.zipWith (weightedSum m.news_encoder.linear.weight.length)
          (m.news_encoder.maskedWeights th e
            (m.doc_encoder.encode ids.flatten am.flatten) kpm.flatten
            (smp.map List.flatten))
          ((m.news_encoder.multi_head_attention
              (m.doc_encoder.encode ids.flatten am.flatten) kpm.flatten).1.map
            (fun row => row.map
              (fun v => (m.news_encoder.linear.apply v).map th)))).take A).length := by
        rw [List.length_take, hOUTlen]
        omega
      rw [List.getD_eq_getElem _ _ h0']
      rw [← hwn]
      exact weighted_rows_mem_length m.news_encoder.linear th _ _ _ hbn
        (List.mem_of_mem_take (List.getElem_mem h0'))
    have hushape := userEncoder_forward_shape m.user_encoder th e
      (unflatten U A
        (List.zipWith (weightedSum m.news_encoder.linear.weight.length)
          (m.news_encoder.maskedWeights th e
            (m.doc_encoder.encode ids.flatten am.flatten) kpm.flatten
            (smp.map List.flatten))
          ((m.news_encoder.multi_head_attention
              (m.doc_encoder.encode ids.flatten am.flatten) kpm.flatten).1.map
            (fun row => row.map (fun v => (m.news_encoder.linear.apply v).map th)))))
      (hmhau _) hbu
    refine ⟨m.user_encoder.forward th e
      (unflatten U A
        (List.zipWith (weightedSum m.news_encoder.linear.weight.length)
          (m.news_encoder.maskedWeights th e
            (m.doc_encoder.encode ids.flatten am.flatten) kpm.flatten
            (smp.map List.flatten))
          ((m.news_encoder.multi_head_attention
              (m.doc_encoder.encode ids.flatten am.flatten) kpm.flatten).1.map
            (fun row => row.map (fun v => (m.news_encoder.linear.apply v).map th))))),
      ?_, ?_, ?_⟩
    · simp only [NRMS.forward_user_encoder, hfn]
      split_ifs with hc
      · rfl
      · exfalso
        apply hc
        constructor
        · exact hushape.1
        · refine List.all_eq_true.mpr ?_
          intro v hv
          rw [decide_eq_true_eq]
          rw [hushape.2 v hv, hwu]
          exact hdim0.symm
    · rw [hushape.1, unflatten_length]
    · intro v hv
      rw [hushape.2 v hv, hwu]

/-- Witness for C5 at a concrete input of shape `(1, 1, 1)` with the concrete
model `exM` (identity attention modules, 1-dimensional linear layers). -/
theorem nrms_encoder_shape_invariants_witness :
    ((∃ nv cw aw, exM.forward_news_encoder (fun q => q) (fun _ => 1)
          [[[7]]] [[[1]]] [[[0]]] none = some (nv, cw, aw) ∧
        nv.length = 1 ∧
        ∀ r ∈ nv, r.length = 1 ∧ ∀ v ∈ r, v.length = exM.encoder_dim) ∧
      ∃ uv, exM.forward_user_encoder (fun q => q) (fun _ => 1)
          [[[7]]] [[[1]]] [[[0]]] none = some uv ∧
        uv.length = 1 ∧ ∀ v ∈ uv, v.length = exM.encoder_dim) :=
  nrms_encoder_shape_invariants exM (fun q => q) (fun _ => 1) [[[7]]] [[[1]]] [[[0]]]
    none 1 1 1 (by decide) (by decide) (by decide) (by decide) (by decide) (by decide)
    (by decide) (by decide) (fun msk h => nomatch h) (fun x k => rfl) (fun x => rfl)
    (by decide) (by decide) (by decide) (by decide)
